import Mathlib

/-!
Shallow embedding of the computational core of TrackStar: the dense matrix
kernel (`trackstar/core/src/matrix.c` and the variant carrying the
expansion-by-minors "ideal axis" selection), the covariance-matrix and datum
layers of the Cython bindings (`covariance_matrix.pyx`, `datum.pyx`), the
track and sample bindings (`track.pyx`, `sample.pyx`, `sample.c`,
`utils.pyx`) and the likelihood engine (`likelihood.c`).

Numbers are modelled in an arbitrary linear ordered field (instantiated at
`ℚ` for concrete evaluations and at `ℝ` for statements involving the
transcendental functions); the C `exp`, `sqrt`, `log` and `M_PI` are passed
as parameters where they occur.  C arrays of doubles are modelled as entry
functions together with the stored dimensions, exactly as the `MATRIX`
struct stores `n_rows`/`n_cols` beside the `double **` storage.  Fatal
aborts (`fatal_print`) and the `NULL` returns of the kernel are modelled by
`Option`; Python exceptions by `Except String`, carrying the exception type.
-/

namespace TrackStar

/-- Dense real matrix: `n_rows`, `n_cols` and the `double **` storage,
modelled as an entry function (entries outside the stored bounds are never
read by the embedded routines on the inputs they are run on). -/
structure MATRIX (α : Type) where
  n_rows : ℕ
  n_cols : ℕ
  entry : ℕ → ℕ → α

variable {α : Type} [LinearOrderedField α]

/-- `matrix_init` from matrix.c: an `n_rows × n_cols` matrix created
zero-filled. -/
def matrix_init (n_rows n_cols : ℕ) : MATRIX α :=
  ⟨n_rows, n_cols, fun _ _ => 0⟩

/-- Element assignment `m.matrix[i][j] = value` on the C storage. -/
def matrix_update_entry (m : MATRIX α) (i j : ℕ) (value : α) : MATRIX α :=
  ⟨m.n_rows, m.n_cols, fun r c => if r = i ∧ c = j then value else m.entry r c⟩

/-- `matrix_subtract` from matrix.c: elementwise difference; dimension
mismatch is a fatal error (`none`). -/
def matrix_subtract (m1 m2 : MATRIX α) : Option (MATRIX α) :=
  if m1.n_rows = m2.n_rows ∧ m1.n_cols = m2.n_cols then
    some ⟨m1.n_rows, m1.n_cols, fun i j => m1.entry i j - m2.entry i j⟩
  else none

/-- `matrix_multiply` from matrix.c: the naive triple loop, legal when
`m1.n_cols == m2.n_rows`; incompatible dimensions are a fatal error. -/
def matrix_multiply (m1 m2 : MATRIX α) : Option (MATRIX α) :=
  if m1.n_cols = m2.n_rows then
    some ⟨m1.n_rows, m2.n_cols, fun i j =>
      ∑ k ∈ Finset.range m1.n_cols, m1.entry i k * m2.entry k j⟩
  else none

/-- `matrix_transpose` from matrix.c: `out[i][j] = m[j][i]`. -/
def matrix_transpose (m : MATRIX α) : MATRIX α :=
  ⟨m.n_cols, m.n_rows, fun i j => m.entry j i⟩

/-- `matrix_minor` from matrix.c: the `(n_rows−1) × (n_cols−1)` matrix with
row `axis0` and column `axis1` deleted. -/
def matrix_minor (m : MATRIX α) (axis0 axis1 : ℕ) : MATRIX α :=
  ⟨m.n_rows - 1, m.n_cols - 1, fun i j =>
    m.entry (if i < axis0 then i else i + 1) (if j < axis1 then j else j + 1)⟩

/-- Recursion underlying `matrix_determinant` from matrix.c, with the row
count as the structural argument.  Size 1 and 2 are the C base cases; the
recursive case expands by minors along the first row with sign `(−1)^i`.
A size-0 matrix falls into the recursive case in C, where the loop body
never runs and the accumulator 0 is returned. -/
def detAux : ℕ → MATRIX α → α
  | 0, _ => 0
  | 1, m => m.entry 0 0
  | 2, m => m.entry 0 0 * m.entry 1 1 - m.entry 0 1 * m.entry 1 0
  | n + 3, m =>
      ∑ i ∈ Finset.range m.n_cols,
        (-1 : α) ^ i * m.entry 0 i * detAux (n + 2) (matrix_minor m 0 i)

/-- `matrix_determinant` from matrix.c: only defined for square matrices
(a non-square argument is a fatal error). -/
def matrix_determinant (m : MATRIX α) : Option α :=
  if m.n_rows = m.n_cols then some (detAux m.n_rows m) else none

/-- `matrix_cofactors` from matrix.c: `C[i][j] = (−1)^(i+j) · det(minor)`;
non-square input is a fatal error.  The determinants of the minors are the
square case of `matrix_determinant`. -/
def matrix_cofactors (m : MATRIX α) : Option (MATRIX α) :=
  if m.n_rows = m.n_cols then
    some ⟨m.n_rows, m.n_cols, fun i j =>
      (-1 : α) ^ (i + j) * detAux (m.n_rows - 1) (matrix_minor m i j)⟩
  else none

/-- `matrix_adjoint` from matrix.c: the transpose of the cofactor matrix. -/
def matrix_adjoint (m : MATRIX α) : Option (MATRIX α) :=
  (matrix_cofactors m).map matrix_transpose

/-- `matrix_invert` from matrix.c: computes the determinant (fatal on a
non-square input), returns `NULL` (`none`) when it is zero, and otherwise
divides the adjoint by the determinant. -/
def matrix_invert (m : MATRIX α) : Option (MATRIX α) :=
  (matrix_determinant m).bind fun det =>
    if det ≠ 0 then
      (matrix_adjoint m).map fun adj =>
        ⟨adj.n_rows, adj.n_cols, fun i j => adj.entry i j / det⟩
    else none

/-- The identity matrix, as built by `matrix.identity` in matrix.pyx
(a zero-filled array with ones written along the diagonal). -/
def matrix_identity (size : ℕ) : MATRIX α :=
  ⟨size, size, fun i j => if i = j then 1 else 0⟩

/-! The variant of the matrix kernel carrying the "ideal axis" selection for
expansion by minors (`struct row_column_index`, `matrix_zeros_along_axis`,
`matrix_determinant_ideal_axis`). -/

/-- The `struct row_column_index` of the ideal-axis determinant variant: an
index together with a flag saying whether it denotes a row or a column. -/
structure row_column_index where
  index : ℕ
  along_row : Bool
deriving DecidableEq

/-- `matrix_zeros_along_axis`: the number of zero entries along row `index`
(when `along_row`) or column `index` of the matrix. -/
def matrix_zeros_along_axis (m : MATRIX α) (index : ℕ) (along_row : Bool) : ℕ :=
  if along_row then
    ∑ j ∈ Finset.range m.n_cols, if m.entry index j = 0 then 1 else 0
  else
    ∑ i ∈ Finset.range m.n_rows, if m.entry i index = 0 then 1 else 0

/-- `matrix_determinant_ideal_axis`: starts from row 0, remembers its zero
count in `current_max`, then scans the remaining rows and all columns,
replacing the axis whenever a scanned axis has more zeros than
`current_max`.  The source never updates `current_max` inside either loop;
this definition reproduces that behaviour. -/
def matrix_determinant_ideal_axis (m : MATRIX α) : row_column_index :=
  let current_max := matrix_zeros_along_axis m 0 true
  let axis₁ := ((List.range m.n_rows).drop 1).foldl
    (fun axis i =>
      if current_max < matrix_zeros_along_axis m i true then
        { axis with index := i }
      else axis)
    ⟨0, true⟩
  (List.range m.n_cols).foldl
    (fun axis j =>
      if current_max < matrix_zeros_along_axis m j false then
        ⟨j, false⟩
      else axis)
    axis₁

/-! Covariance-matrix and datum layer (`covariance_matrix.pyx`,
`datum.pyx`). -/

/-- The `COVARIANCE_MATRIX` struct: pointer-compatible with `MATRIX` (the
`data` field here) and additionally carrying the cached inverse `inv`. -/
structure COVARIANCE_MATRIX (α : Type) where
  data : MATRIX α
  inv : MATRIX α

/-- The data write performed by `covariance_matrix.__setitem__`: a diagonal
assignment must be positive and exceed `1e-12` (else `ValueError`); an
off-diagonal assignment writes both `(i, j)` and `(j, i)`. -/
def covariance_setitem_data (c : COVARIANCE_MATRIX α) (i j : ℕ) (value : α) :
    Except String (MATRIX α) :=
  if i = j then
    if 0 < value then
      if 1 / 10 ^ 12 < value then .ok (matrix_update_entry c.data i j value)
      else .error "ValueError"
    else .error "ValueError"
  else
    .ok (matrix_update_entry (matrix_update_entry c.data i j value) j i value)

/-- `covariance_matrix.__setitem__`: performs the data write, then calls
`matrix_invert(data, inv)`; the call overwrites `inv` in place when the new
data is invertible and returns `NULL` without touching `inv` otherwise (the
return value is ignored by the Cython caller). -/
def covariance_setitem (c : COVARIANCE_MATRIX α) (i j : ℕ) (value : α) :
    Except String (COVARIANCE_MATRIX α) :=
  (covariance_setitem_data c i j value).map fun nd =>
    { data := nd, inv := (matrix_invert nd).getD c.inv }

/-- The `DATUM` struct: a row vector (pointer-compatible with a `1 × n_cols`
`MATRIX`) with per-component labels and an attached covariance matrix.  The
C invariant `|labels| == n_cols` is built in: the stored column count is the
label count. -/
structure DATUM (α : Type) where
  labels : List String
  vector : ℕ → α
  cov : COVARIANCE_MATRIX α

/-- The `n_cols` field of the `DATUM` struct. -/
def DATUM.n_cols (d : DATUM α) : ℕ := d.labels.length

/-- A `DATUM` viewed through its compatible `MATRIX` pointer: one row whose
entries are the vector components. -/
def datum_as_matrix (d : DATUM α) : MATRIX α :=
  ⟨1, d.n_cols, fun _ j => d.vector j⟩

/-- `strindex` from utils.c: the first index at which the string occurs in
the list, `-1` (`none`) when it does not occur. -/
def strindex : List String → String → Option ℕ
  | [], _ => none
  | s :: rest, test =>
      if s = test then some 0 else (strindex rest test).map (· + 1)

/-- The error-key test of `datum.__init__`: a label beginning with `err_` or
ending with `_err` names a measurement uncertainty (the prefix and suffix
tests are expressed through `take`/`takeRight`). -/
def err_tag (x : String) : Bool := x.take 4 == "err_" || x.takeRight 4 == "_err"

/-- The base quantity named by an error key (`err[4:]` for an `err_` prefix,
`err[:-4]` otherwise). -/
def err_base (x : String) : String :=
  if x.take 4 == "err_" then x.drop 4 else x.dropRight 4

/-- The uncertainty entry attached to a base quantity, when one exists:
`datum.__init__` checks for the key `<qty>_err` first and `err_<qty>`
second. -/
def datum_err_value (qty : String) (vector : List (String × α)) : Option α :=
  (List.lookup (qty ++ "_err") vector).or (List.lookup ("err_" ++ qty) vector)

/-- The loop of `datum.__init__` that absorbs the `*_err` entries: for each
base quantity with an uncertainty key, the squared value is written straight
into the covariance storage `cov.matrix[i][i]`. -/
def datum_err_squared_writes (qtys : List String) (vector : List (String × α))
    (m : MATRIX α) : MATRIX α :=
  (List.range qtys.length).foldl
    (fun m i =>
      (datum_err_value (qtys.getD i "") vector).elim m
        (fun e => matrix_update_entry m i i (e ^ 2)))
    m

/-- Construction of a datum from a mapping (`datum.__cinit__` followed by
`datum.__init__`): validate that every error key references a base key,
build the covariance as `covariance_matrix.identity(len(qtys))` — whose
constructor runs `matrix_invert` on the identity data, over an inverse
buffer created zero-filled — store labels and vector components, and write
the squared uncertainties into the covariance data. -/
def datum_construct (vector : List (String × α)) : Except String (DATUM α) :=
  let keys := vector.map Prod.fst
  let errs := keys.filter (fun k => err_tag k)
  if errs.all (fun e => keys.contains (err_base e)) then
    let qtys := keys.filter (fun k => !err_tag k)
    let cov0 : COVARIANCE_MATRIX α :=
      { data := matrix_identity qtys.length
        inv := (matrix_invert (matrix_identity qtys.length)).getD
          (matrix_init qtys.length qtys.length) }
    .ok { labels := qtys
          vector := fun i => (List.lookup (qtys.getD i "") vector).getD 0
          cov := { data := datum_err_squared_writes qtys vector cov0.data
                   inv := cov0.inv } }
  else .error "ValueError"

/-! Track representation (`track.h`, `track.c`, `track.pyx`). -/

/-- The `TRACK` struct: an ordered sequence of predicted vectors with
per-vertex weights, per-column labels and the configuration flags.  The C
invariant `|labels| == dim` is built in: the stored dimensionality is the
label count. -/
structure TRACK (α : Type) where
  n_vectors : ℕ
  labels : List String
  predictions : ℕ → ℕ → α
  weights : ℕ → α
  n_threads : ℕ
  use_line_segment_corrections : Bool
  normalize_weights : Bool

/-- The `dim` field of the `TRACK` struct. -/
def TRACK.dim (t : TRACK α) : ℕ := t.labels.length

/-- `trackpoint` from likelihood.c: the `index`'th prediction vector of the
track as a stand-alone `1 × dim` matrix. -/
def trackpoint (t : TRACK α) (index : ℕ) : MATRIX α :=
  ⟨1, t.dim, fun _ i => t.predictions index i⟩

/-- `track_subset` from likelihood.c: a new track whose columns are the
columns of `t` found (by `strindex`) for each label of `d`, in the order of
the labels of `d`; weights are copied, `n_threads` and
`use_line_segment_corrections` are copied from `t`, while the fresh track
keeps the `track_initialize` default `normalize_weights = 1`.  It is `NULL`
(`none`) when some label of `d` is not a label of `t`. -/
def track_subset (d : DATUM α) (t : TRACK α) : Option (TRACK α) :=
  (d.labels.mapM (strindex t.labels)).map fun idxs =>
    { n_vectors := t.n_vectors
      labels := idxs.map (fun k => t.labels.getD k "")
      predictions := fun j i => t.predictions j (idxs.getD i 0)
      weights := t.weights
      n_threads := t.n_threads
      use_line_segment_corrections := t.use_line_segment_corrections
      normalize_weights := true }

/-! Likelihood engine (`likelihood.c`).  The transcendental functions `exp`,
`sqrt`, `log` and the constant `PI` of the C code are parameters, as is the
quadrature-based `corrective_factor`, which no claim below evaluates. -/

/-- `chi_squared` from likelihood.c:
`χ² = (d − t_index) · C⁻¹ · (d − t_index)ᵀ`, built from the matrix kernel;
a result that is not `1 × 1` is a fatal error. -/
def chi_squared (d : DATUM α) (t : TRACK α) (index : ℕ) : Option α :=
  (matrix_subtract (datum_as_matrix d) (trackpoint t index)).bind fun delta =>
    (matrix_multiply delta d.cov.inv).bind fun first =>
      (matrix_multiply first (matrix_transpose delta)).bind fun second =>
        if second.n_rows = 1 ∧ second.n_cols = 1 then some (second.entry 0 0)
        else none

/-- `delta_model` from likelihood.c: the magnitude of the displacement
`t.predictions[index+1] − t.predictions[index]` for every vertex but the
last, and 0 for the final vertex. -/
def delta_model (rsqrt : α → α) (t : TRACK α) (index : ℕ) : α :=
  if index < t.n_vectors - 1 then
    (matrix_subtract (trackpoint t (index + 1)) (trackpoint t index)).elim 0
      fun delta =>
        rsqrt (∑ i ∈ Finset.range delta.n_cols, delta.entry 0 i * delta.entry 0 i)
  else 0

/-- `normalize_weights` from likelihood.c: divides every stored weight by
`weight_norm = sum(weights) · 1000 / n_vectors` and returns the new track
state together with `weight_norm`. -/
def normalize_weights (t : TRACK α) : TRACK α × α :=
  let weight_norm := (∑ i ∈ Finset.range t.n_vectors, t.weights i) *
    (1000 / (t.n_vectors : α))
  ({ t with weights := fun i =>
      if i < t.n_vectors then t.weights i / weight_norm else t.weights i },
    weight_norm)

/-- `unnormalize_weights` from likelihood.c: multiplies every stored weight
back by the `weight_norm` returned by `normalize_weights`. -/
def unnormalize_weights (t : TRACK α) (weight_norm : α) : TRACK α :=
  { t with weights := fun i =>
      if i < t.n_vectors then t.weights i * weight_norm else t.weights i }

variable (rexp rsqrt rlog : α → α) (rpi : α)
variable (corrective_factor : DATUM α → TRACK α → ℕ → α)

/-- The body of `loglikelihood_datum` from likelihood.c (everything between
the weight-normalization prologue and epilogue): project the track onto the
datum's labels (fatal when incomplete), sum the per-vertex contributions
`weights[i] · exp(−½ χ²ᵢ) · Δmᵢ` — times the corrective factor when
`use_line_segment_corrections` is set on the input track — divide by
`sqrt(2 π det(d.cov))` and take the natural logarithm. -/
def loglikelihood_datum_body (d : DATUM α) (t : TRACK α) : Option α :=
  (track_subset d t).bind fun sub =>
    ((List.range sub.n_vectors).mapM fun i =>
        (chi_squared d sub i).map fun chisq =>
          let s := sub.weights i * rexp (-(1 / 2) * chisq) *
            delta_model rsqrt sub i
          if t.use_line_segment_corrections then s * corrective_factor d sub i
          else s).bind
      fun terms =>
        (matrix_determinant d.cov.data).map fun det =>
          rlog (terms.sum / rsqrt (2 * rpi * det))

/-- `loglikelihood_datum` from likelihood.c, with the process-wide
`CALLING_FUNCTION` flag passed explicitly: when called from
`loglikelihood_sample` with `normalize_weights` set, the weights are
normalized before and restored after the body; the final track state is
returned beside the value. -/
def loglikelihood_datum (calling : Bool) (d : DATUM α) (t : TRACK α) :
    Option (α × TRACK α) :=
  let tw := if calling && t.normalize_weights then normalize_weights t
    else (t, 1)
  (loglikelihood_datum_body rexp rsqrt rlog rpi corrective_factor d tw.1).map
    fun value =>
      (value,
        if calling && t.normalize_weights then unnormalize_weights tw.1 tw.2
        else tw.1)

/-- `loglikelihood_sample` from likelihood.c: normalize the weights when the
track's flag is set, accumulate the per-datum log-likelihoods (each call
carrying the `CALLING_FUNCTION` flag), then either restore the weights or —
when the flag is clear — subtract the sum of the stored weights. -/
def loglikelihood_sample (s : List (DATUM α)) (t : TRACK α) :
    Option (α × TRACK α) :=
  let tw := if t.normalize_weights then normalize_weights t else (t, 1)
  (s.foldlM
      (fun acc d =>
        (loglikelihood_datum rexp rsqrt rlog rpi corrective_factor true d
            acc.2).map
          fun vr => (acc.1 + vr.1, vr.2))
      ((0 : α), tw.1)).map
    fun res =>
      if t.normalize_weights then (res.1, unnormalize_weights res.2 tw.2)
      else (res.1 - ∑ i ∈ Finset.range res.2.n_vectors, res.2.weights i, res.2)

/-- The per-vertex χ² of §4.7 of the specification, written as the explicit
double sum `(d.vector − T'.predictions[i]) · d.cov.inv ·
(d.vector − T'.predictions[i])ᵀ` over the datum's components. -/
def specChiSq (d : DATUM α) (tp : TRACK α) (i : ℕ) : α :=
  ∑ j ∈ Finset.range d.n_cols, ∑ k ∈ Finset.range d.n_cols,
    (d.vector j - tp.predictions i j) * d.cov.inv.entry j k *
      (d.vector k - tp.predictions i k)

/-- The per-vertex segment length of §4.7 of the specification: the
Euclidean norm `‖T'.predictions[i+1] − T'.predictions[i]‖₂` for
`i < n_vertices − 1`, else 0. -/
def specDeltaM (rsqrt : α → α) (tp : TRACK α) (i : ℕ) : α :=
  if i < tp.n_vectors - 1 then
    rsqrt (∑ k ∈ Finset.range tp.dim,
      (tp.predictions (i + 1) k - tp.predictions i k) ^ 2)
  else 0

/-! Sample filtering (`sample.c`, `sample.pyx`). -/

/-- One iteration of the loop of `sample_filter_indices` from sample.c:
a datum without the label passes iff missing measurements are kept; a datum
with the label is compared against the value according to the condition
indicator (1: `==`, 2: `<`, 3: `<=`, 4: `>`, 5: `>=`); any other indicator
makes the whole call return `NULL`. -/
def datum_passes_filter (d : DATUM α) (label : String)
    (condition_indicator : ℕ) (value : α) (keep_missing_measurements : Bool) :
    Option Bool :=
  (strindex d.labels label).elim (some keep_missing_measurements) fun colidx =>
    if condition_indicator = 1 then some (decide (d.vector colidx = value))
    else if condition_indicator = 2 then some (decide (d.vector colidx < value))
    else if condition_indicator = 3 then some (decide (d.vector colidx ≤ value))
    else if condition_indicator = 4 then some (decide (value < d.vector colidx))
    else if condition_indicator = 5 then some (decide (value ≤ d.vector colidx))
    else none

/-- The loop of `sample_filter_indices`, collecting the indices (relative to
the running counter `i`) of the data that pass the filter. -/
def sample_filter_loop (data : List (DATUM α)) (i : ℕ) (label : String)
    (condition_indicator : ℕ) (value : α) (keep_missing_measurements : Bool) :
    Option (List ℕ) :=
  match data with
  | [] => some []
  | d :: rest =>
      (datum_passes_filter d label condition_indicator value
          keep_missing_measurements).bind fun pass =>
        (sample_filter_loop rest (i + 1) label condition_indicator value
            keep_missing_measurements).map fun tail =>
          if pass then i :: tail else tail

/-- `sample_filter_indices` from sample.c: the returned array, whose element
0 is the number of data vectors that pass the filter and whose subsequent
elements are their indices in `s.data`. -/
def sample_filter_indices (data : List (DATUM α)) (label : String)
    (condition_indicator : ℕ) (value : α) (keep_missing_measurements : Bool) :
    Option (List ℕ) :=
  (sample_filter_loop data 0 label condition_indicator value
      keep_missing_measurements).map fun idxs => idxs.length :: idxs

/-- The condition-string table of `sample.filter` in sample.pyx. -/
def filter_condition_indicator (condition : String) : Option ℕ :=
  if condition = "=" then some 1
  else if condition = "==" then some 1
  else if condition = "<" then some 2
  else if condition = "<=" then some 3
  else if condition = ">" then some 4
  else if condition = ">=" then some 5
  else none

/-- A placeholder datum, standing in for the out-of-bounds accesses that the
Python layer never performs on the inputs it is run on. -/
def junk_datum : DATUM α :=
  ⟨[], fun _ => 0, ⟨matrix_init 0 0, matrix_init 0 0⟩⟩

/-- `sample.filter` from sample.pyx: translate the condition string, obtain
the index array from `sample_filter_indices` (a `NULL` return fails an
assertion), then build the new sample as
`for i in range(1, indices[0]): sub.add_datum(self._data[indices[i]])`. -/
def sample_filter (data : List (DATUM α)) (label : String) (condition : String)
    (value : α) (keep_missing_measurements : Bool) :
    Except String (List (DATUM α)) :=
  (filter_condition_indicator condition).elim (.error "ValueError") fun ci =>
    (sample_filter_indices data label ci value
        keep_missing_measurements).elim (.error "AssertionError") fun indices =>
      .ok (((List.range (indices.headD 0)).drop 1).map fun i =>
        data.getD (indices.getD i 0) junk_datum)

/-! Vertex indexing of a track (`track.pyx`, `utils.pyx`). -/

/-- The `linked_dict` object of utils.pyx: parallel arrays of value pointers
(modelled by the dereferenced values) and keys, together with the element
count it was constructed with. -/
structure linked_dict (α : Type) where
  arr : ℕ → α
  keys : List String
  n_elements : ℕ

/-- `linked_dict.__getitem__` from utils.pyx: `strindex` over the first
`n_elements` keys, returning the value at the found index and a `KeyError`
otherwise. -/
def linked_dict_getitem (ld : linked_dict α) (key : String) :
    Except String α :=
  (strindex (ld.keys.take ld.n_elements) key).elim (.error "KeyError")
    fun idx => .ok (ld.arr idx)

/-- `linked_dict.keys` from utils.pyx: the first `n_elements` keys. -/
def linked_dict_keys (ld : linked_dict α) : List String :=
  ld.keys.take ld.n_elements

/-- `track._getitem_number_` from track.pyx: builds `dim + 1` value pointers
(the row of predictions followed by the row's weight) and `dim + 1` keys
(the labels followed by `"weights"`), but constructs the `linked_dict` with
`n_elements = dim`. -/
def track_getitem_number (t : TRACK α) (row : ℕ) : linked_dict α :=
  { arr := fun i => if i < t.dim then t.predictions row i else t.weights row
    keys := t.labels ++ ["weights"]
    n_elements := t.dim }

/-! Thread-count configuration (`track.pyx`, `multithread.h`). -/

/-- The compile-time constant `MAX_THREADS_CPU_RATIO` of multithread.h. -/
def MAX_THREADS_CPU_RATIO : ℤ := 10

/-- `max_threads_allowed` from multithread.h:
`MAX_THREADS_CPU_RATIO` times the number of active CPUs. -/
def max_threads_allowed (cpu_count : ℤ) : ℤ :=
  MAX_THREADS_CPU_RATIO * cpu_count

/-- The `track.n_threads` setter of track.pyx (integrality of the argument
is reflected by its type): a non-positive request is a `ValueError`; a
request above 1 with multithreading unavailable is a `RuntimeError`; any
other request is stored unchanged. -/
def track_n_threads_set (t : TRACK α) (value : ℤ)
    (multithreading_enabled : Bool) : Except String (TRACK α) :=
  if 0 < value then
    if value = 1 ∨ multithreading_enabled then
      .ok { t with n_threads := value.toNat }
    else .error "RuntimeError"
  else .error "ValueError"

/-! Concrete inputs used by the closed instances of the theorems below. -/

/-- A `3 × 3` matrix whose row 1 holds two zeros while every column holds at
most one. -/
def axisExample : MATRIX ℚ :=
  ⟨3, 3, fun i j =>
    if i = 1 ∧ j ≠ 2 then 0 else if i = 2 ∧ j = 2 then 0 else 1⟩

/-- The constructor mapping `{x: 0, y: 0, x_err: 1/2}`. -/
def datumExampleInput : List (String × ℚ) :=
  [("x", 0), ("y", 0), ("x_err", 1 / 2)]

/-- A `2 × 2` identity covariance matrix with its inverse cached. -/
def covExample : COVARIANCE_MATRIX ℚ := ⟨matrix_identity 2, matrix_identity 2⟩

/-- The data matrix of `covExample` after the off-diagonal assignment
`[0, 1] = 1` (which also writes `[1, 0]`). -/
def covExampleWritten : MATRIX ℚ :=
  matrix_update_entry (matrix_update_entry (matrix_identity 2) 0 1 1) 1 0 1

/-- A one-component datum `{x: 1}` with an identity covariance. -/
def filterExampleDatum : DATUM ℚ :=
  ⟨["x"], fun _ => 1, ⟨matrix_identity 1, matrix_identity 1⟩⟩

/-- A two-vertex one-dimensional track `{x: [0, 1]}` with unit weights. -/
def vertexExampleTrack : TRACK ℚ :=
  { n_vectors := 2
    labels := ["x"]
    predictions := fun i _ => (i : ℚ)
    weights := fun _ => 1
    n_threads := 1
    use_line_segment_corrections := false
    normalize_weights := true }

/-- A single-vertex track whose sole weight is 2. -/
def normExampleTrack : TRACK ℚ :=
  { n_vectors := 1
    labels := ["x"]
    predictions := fun _ _ => 0
    weights := fun _ => 2
    n_threads := 1
    use_line_segment_corrections := false
    normalize_weights := true }

/-- A two-vertex track with unit weights, used to instantiate the
weight-normalization laws. -/
def idemExampleTrack : TRACK ℚ :=
  { n_vectors := 2
    labels := ["x"]
    predictions := fun i _ => (i : ℚ)
    weights := fun _ => 1
    n_threads := 1
    use_line_segment_corrections := false
    normalize_weights := true }

/-- A one-dimensional real datum `{x: 0}` whose covariance and cached
inverse are the `1 × 1` identity. -/
def realExampleDatum : DATUM ℝ :=
  ⟨["x"], fun _ => 0, ⟨⟨1, 1, fun _ _ => 1⟩, ⟨1, 1, fun _ _ => 1⟩⟩⟩

/-- A two-vertex real track `{x: [0, 1]}` with unit weights. -/
def realExampleTrack : TRACK ℝ :=
  { n_vectors := 2
    labels := ["x"]
    predictions := fun i _ => (i : ℝ)
    weights := fun _ => 1
    n_threads := 1
    use_line_segment_corrections := false
    normalize_weights := true }

/-! Theorems. -/

/-- C7: refuted — for the square matrix `axisExample` (size 3 > 2), the axis
chosen by `matrix_determinant_ideal_axis` is column 2, whose zero count is
smaller than that of row 1, because the scan never updates `current_max`;
so the chosen axis does not contain the greatest number of zero entries. -/
theorem ideal_axis_not_maximal :
    matrix_determinant_ideal_axis axisExample = ⟨2, false⟩ ∧
      matrix_zeros_along_axis axisExample
          (matrix_determinant_ideal_axis axisExample).index
          (matrix_determinant_ideal_axis axisExample).along_row <
        matrix_zeros_along_axis axisExample 1 true := by
  decide

/-- C6: refuted — the `n_threads` setter stores the requested value 11
unchanged even though `max_threads_allowed` is 10 for a single active CPU:
no clamping against the cap is performed anywhere in the setter. -/
theorem n_threads_not_clamped :
    (track_n_threads_set vertexExampleTrack 11 true).map
        (fun tr => tr.n_threads) = .ok 11 ∧
      max_threads_allowed 1 = 10 ∧ ¬((11 : ℤ) ≤ max_threads_allowed 1) := by
  refine ⟨rfl, rfl, by decide⟩

/-- C5: refuted — indexing the track `vertexExampleTrack` by vertex 0 builds
the value and key arrays with `weights` in position `dim`, but constructs
the `linked_dict` with `n_elements = dim`, so `"weights"` is not among the
mapping's keys and looking it up raises `KeyError` instead of returning
`weights[0]`. -/
theorem track_vertex_mapping_misses_weights :
    linked_dict_getitem (track_getitem_number vertexExampleTrack 0) "weights"
        = .error "KeyError" ∧
      linked_dict_keys (track_getitem_number vertexExampleTrack 0) = ["x"] := by
  exact ⟨rfl, rfl⟩

/-- C2: refuted — filtering the one-datum sample `[{x: 1}]` with
`x == 1` (a condition the datum satisfies) returns the empty sample: the
Cython loop `for i in range(1, indices[0])` stops one short of the last
passing index, so the final surviving datum is always dropped. -/
theorem sample_filter_drops_last_match :
    sample_filter [filterExampleDatum] "x" "==" (1 : ℚ) false = .ok [] ∧
      ([] : List (DATUM ℚ)) ≠ [filterExampleDatum] := by
  exact ⟨rfl, by simp⟩

/-- C10: an element assignment that drives the determinant of the data to
exactly zero succeeds with no error, and the cached `inv` keeps its previous
value, because `matrix_invert` returns `NULL` without writing to the
supplied result matrix when the determinant is zero. -/
theorem covariance_setitem_singular_keeps_stale_inv
    (c : COVARIANCE_MATRIX α) (i j : ℕ) (value : α) (nd : MATRIX α)
    (hok : covariance_setitem_data c i j value = .ok nd)
    (hdet : matrix_determinant nd = some 0) :
    covariance_setitem c i j value = .ok { data := nd, inv := c.inv } ∧
      matrix_invert nd = none := by
  have hinv : matrix_invert nd = none := by
    simp [matrix_invert, hdet]
  refine ⟨?_, hinv⟩
  simp [covariance_setitem, hok, Except.map, hinv]

/-- Closed instance of C10: assigning 1 to the off-diagonal `(0, 1)` of the
2 × 2 identity covariance makes the data singular; the assignment succeeds
and the cached inverse is still the identity. -/
theorem covariance_setitem_singular_keeps_stale_inv_witness :
    covariance_setitem covExample 0 1 (1 : ℚ)
        = .ok { data := covExampleWritten, inv := covExample.inv } ∧
      matrix_invert covExampleWritten = none :=
  covariance_setitem_singular_keeps_stale_inv covExample 0 1 1
    covExampleWritten rfl
    (by norm_num [covExampleWritten, matrix_determinant, detAux,
      matrix_update_entry, matrix_identity])

/-- C4: refuted for the construction path — building a datum from
`{x: 0, y: 0, x_err: 1/2}` writes `(1/2)² = 1/4` straight into the
covariance storage without recomputing the cached inverse, which keeps the
value 1 computed for the initial identity matrix; `1 ≠ (1/4)⁻¹`, so after
construction `inv` is not the arithmetic inverse of `data`. -/
theorem datum_construct_stale_inverse :
    (datum_construct datumExampleInput).map
        (fun d => (d.cov.data.entry 0 0, d.cov.inv.entry 0 0))
        = .ok (1 / 4, 1) ∧
      (1 : ℚ) ≠ ((1 / 4 : ℚ))⁻¹ := by
  constructor
  · have hqty : (["x", "y", "x_err"].filter (fun k => !err_tag k))
        = ["x", "y"] := by decide
    have herr : (["x", "y", "x_err"].filter (fun k => err_tag k))
        = ["x_err"] := by decide
    have hb : err_base "x_err" = "x" := by decide
    have hl1 : datum_err_value "x" [("x", (0 : ℚ)), ("y", 0), ("x_err", 1 / 2)]
        = some (1 / 2) := rfl
    have hl2 : datum_err_value "y" [("x", (0 : ℚ)), ("y", 0), ("x_err", 1 / 2)]
        = none := rfl
    norm_num [datumExampleInput, datum_construct, List.map_cons, List.map_nil,
      hqty, herr, hb, datum_err_squared_writes, List.range_succ, hl1, hl2,
      matrix_update_entry, matrix_identity, matrix_init, matrix_invert,
      matrix_determinant, matrix_adjoint, matrix_cofactors, matrix_transpose,
      matrix_minor, detAux, Except.map]
  · norm_num

/-- C3, counterexample: for the single-vertex track with weight 2, the
weight stored after normalization is `1/1000`, not the value
`2 / (sum/1000 · 1/n_vertices) = 1000` asserted by the claim: the divisor
computed by `normalize_weights` is `sum · 1000 / n_vertices`, not
`sum / 1000 · 1/n_vertices`. -/
theorem normalize_weights_spec_divisor_refuted :
    (normalize_weights normExampleTrack).1.weights 0 ≠
      normExampleTrack.weights 0 /
        ((∑ i ∈ Finset.range normExampleTrack.n_vectors,
            normExampleTrack.weights i) / 1000 *
          (1 / (normExampleTrack.n_vectors : ℚ))) := by
  norm_num [normalize_weights, normExampleTrack, Finset.sum_range_one]

/-- C3, amended: the divisor applied to every weight while the computation
runs is `sum(weights) · 1000 / n_vertices` — equivalently, each weight is
scaled by `n_vertices / (1000 · sum(weights))`. -/
theorem normalize_weights_scales_by_sum_factor (t : TRACK α)
    (hn : 0 < t.n_vectors)
    (hS : (∑ i ∈ Finset.range t.n_vectors, t.weights i) ≠ 0) :
    (normalize_weights t).2 =
        (∑ i ∈ Finset.range t.n_vectors, t.weights i) * 1000 /
          (t.n_vectors : α) ∧
      ∀ i < t.n_vectors, (normalize_weights t).1.weights i =
        t.weights i * ((t.n_vectors : α) /
          (1000 * ∑ j ∈ Finset.range t.n_vectors, t.weights j)) := by
  have hncast : (t.n_vectors : α) ≠ 0 :=
    Nat.cast_ne_zero.mpr (Nat.pos_iff_ne_zero.mp hn)
  constructor
  · simp only [normalize_weights]
    rw [mul_div_assoc]
  · intro i hi
    simp only [normalize_weights, if_pos hi]
    rw [show (∑ j ∈ Finset.range t.n_vectors, t.weights j) *
        (1000 / (t.n_vectors : α)) =
        (1000 * ∑ j ∈ Finset.range t.n_vectors, t.weights j) /
          (t.n_vectors : α) by ring]
    rw [div_div_eq_mul_div, mul_div_assoc]

/-- Closed instance of C3's amended statement at the single-vertex track
with weight 2. -/
theorem normalize_weights_scales_by_sum_factor_witness :
    0 < normExampleTrack.n_vectors ∧
      ((normalize_weights normExampleTrack).2 =
          (∑ i ∈ Finset.range normExampleTrack.n_vectors,
            normExampleTrack.weights i) * 1000 /
            (normExampleTrack.n_vectors : ℚ) ∧
        ∀ i < normExampleTrack.n_vectors,
          (normalize_weights normExampleTrack).1.weights i =
            normExampleTrack.weights i * ((normExampleTrack.n_vectors : ℚ) /
              (1000 * ∑ j ∈ Finset.range normExampleTrack.n_vectors,
                normExampleTrack.weights j))) :=
  ⟨by norm_num [normExampleTrack],
    normalize_weights_scales_by_sum_factor normExampleTrack
      (by norm_num [normExampleTrack])
      (by norm_num [normExampleTrack, Finset.sum_range_one])⟩

/-- A track on which the computed weight norm is exactly 1 is a fixed point
of `normalize_weights`. -/
theorem normalize_weights_fixed_point (t : TRACK α)
    (h1 : (∑ i ∈ Finset.range t.n_vectors, t.weights i) *
      (1000 / (t.n_vectors : α)) = 1) :
    normalize_weights t = (t, 1) := by
  have hw : (fun i => if i < t.n_vectors then
      t.weights i / ((∑ j ∈ Finset.range t.n_vectors, t.weights j) *
        (1000 / (t.n_vectors : α)))
      else t.weights i) = t.weights := by
    funext i
    rw [h1]
    split <;> simp
  simp only [normalize_weights]
  rw [hw, h1]

/-- C9: in exact arithmetic `normalize_weights` is idempotent on tracks
whose weights have a positive sum: one application makes the weights sum to
`n_vectors / 1000`, so a second application computes a scale factor of
exactly 1 and returns the track unchanged. -/
theorem normalize_weights_idempotent (t : TRACK α)
    (hpos : 0 < ∑ i ∈ Finset.range t.n_vectors, t.weights i) :
    (∑ i ∈ Finset.range t.n_vectors, (normalize_weights t).1.weights i) =
        (t.n_vectors : α) / 1000 ∧
      normalize_weights (normalize_weights t).1 =
        ((normalize_weights t).1, 1) := by
  have hn : t.n_vectors ≠ 0 := by
    intro h
    rw [h] at hpos
    simp at hpos
  have hncast : (t.n_vectors : α) ≠ 0 := Nat.cast_ne_zero.mpr hn
  have hSne : (∑ i ∈ Finset.range t.n_vectors, t.weights i) ≠ 0 :=
    ne_of_gt hpos
  have hsum : (∑ i ∈ Finset.range t.n_vectors,
      (normalize_weights t).1.weights i) = (t.n_vectors : α) / 1000 := by
    simp only [normalize_weights]
    rw [Finset.sum_congr rfl
      (fun i hi => if_pos (Finset.mem_range.mp hi))]
    rw [← Finset.sum_div]
    field_simp
    ring
  refine ⟨hsum, ?_⟩
  refine normalize_weights_fixed_point (normalize_weights t).1 ?_
  have hnv : (normalize_weights t).1.n_vectors = t.n_vectors := rfl
  rw [hnv, hsum]
  field_simp

/-- Closed instance of C9 at the two-vertex track with unit weights. -/
theorem normalize_weights_idempotent_witness :
    0 < (∑ i ∈ Finset.range idemExampleTrack.n_vectors,
        idemExampleTrack.weights i) ∧
      ((∑ i ∈ Finset.range idemExampleTrack.n_vectors,
          (normalize_weights idemExampleTrack).1.weights i) =
          (idemExampleTrack.n_vectors : ℚ) / 1000 ∧
        normalize_weights (normalize_weights idemExampleTrack).1 =
          ((normalize_weights idemExampleTrack).1, 1)) :=
  ⟨by norm_num [idemExampleTrack, Finset.sum_range_succ],
    normalize_weights_idempotent idemExampleTrack
      (by norm_num [idemExampleTrack, Finset.sum_range_succ])⟩

/-- C8: a direct call of `loglikelihood_datum` (the calling-function flag
clear) evaluates the body on the track exactly as stored — weights
untouched — and returns the track unchanged beside the value, whatever the
`normalize_weights` flag says. -/
theorem loglikelihood_datum_direct_uses_stored_weights
    (d : DATUM α) (t : TRACK α) :
    loglikelihood_datum rexp rsqrt rlog rpi corrective_factor false d t =
      (loglikelihood_datum_body rexp rsqrt rlog rpi corrective_factor d
        t).map (fun value => (value, t)) := by
  simp [loglikelihood_datum]

/-- A `mapM` over `Option` succeeds pointwise: when `f` returns `some (g b)`
on every element, `l.mapM f` returns `some (l.map g)`. -/
theorem list_mapM_option_eq_map {β γ : Type} (f : β → Option γ) (g : β → γ)
    (l : List β) (h : ∀ b ∈ l, f b = some (g b)) :
    l.mapM f = some (l.map g) := by
  induction l with
  | nil => rfl
  | cons a l ih =>
    rw [List.map_cons, List.mapM_cons, h a (List.mem_cons_self a l),
      ih (fun b hb => h b (List.mem_cons_of_mem a hb))]
    rfl

/-- `strindex` finds every string that occurs in the list. -/
theorem strindex_isSome (l : List String) (s : String) (h : s ∈ l) :
    ∃ k, strindex l s = some k := by
  induction l with
  | nil => simp at h
  | cons a rest ih =>
    by_cases ha : a = s
    · exact ⟨0, by simp [strindex, ha]⟩
    · have hs : s ∈ rest := by
        rcases List.mem_cons.mp h with h1 | h1
        · exact absurd h1.symm ha
        · exact h1
      obtain ⟨k, hk⟩ := ih hs
      exact ⟨k + 1, by simp [strindex, ha, hk]⟩

/-- The sum of a function mapped over `List.range` is the `Finset.range`
sum. -/
theorem list_range_map_sum {M : Type} [AddCommMonoid M] (f : ℕ → M) (n : ℕ) :
    ((List.range n).map f).sum = ∑ i ∈ Finset.range n, f i := by
  induction n with
  | zero => simp
  | succ n ih =>
    rw [List.range_succ, List.map_append, List.sum_append,
      Finset.sum_range_succ, ih]
    simp

/-- `delta_model` computes exactly the Euclidean segment length of the
specification (and 0 at the final vertex). -/
theorem delta_model_eq (tp : TRACK α) (i : ℕ) :
    delta_model rsqrt tp i = specDeltaM rsqrt tp i := by
  unfold delta_model specDeltaM
  split
  · rw [matrix_subtract, if_pos ⟨rfl, rfl⟩]
    simp only [Option.elim_some]
    congr 1
    refine Finset.sum_congr rfl (fun k _ => ?_)
    rw [pow_two]
    rfl
  · rfl

/-- `chi_squared` computes exactly the double sum
`(d − tᵢ) · C⁻¹ · (d − tᵢ)ᵀ` of the specification whenever the cached
inverse has the datum's dimensions. -/
theorem chi_squared_eq (d : DATUM α) (tp : TRACK α) (i : ℕ)
    (hdim : tp.dim = d.n_cols)
    (hir : d.cov.inv.n_rows = d.n_cols) (hic : d.cov.inv.n_cols = d.n_cols) :
    chi_squared d tp i = some (specChiSq d tp i) := by
  unfold chi_squared
  dsimp only [matrix_subtract, matrix_multiply, matrix_transpose,
    datum_as_matrix, trackpoint]
  rw [hdim, hir, hic]
  simp only [eq_self_iff_true, and_self, if_true, Option.some_bind]
  congr 1
  unfold specChiSq
  rw [Finset.sum_comm]
  exact Finset.sum_congr rfl (fun k _ => by rw [Finset.sum_mul])

/-- C1: for a datum whose labels all occur on the track and a track with
line-segment corrections off, a direct `loglikelihood_datum` call returns
`ln((Σᵢ T'.weights[i] · exp(−½ χ²ᵢ) · Δmᵢ) / sqrt(2 π det(d.cov)))`, where
`T'` is the track projected onto the datum's labels in the datum's label
order, `χ²ᵢ` is the specification's quadratic form and `Δmᵢ` the Euclidean
segment length (0 at the final vertex). -/
theorem loglikelihood_datum_matches_spec
    (d : DATUM ℝ) (t : TRACK ℝ)
    (cf : DATUM ℝ → TRACK ℝ → ℕ → ℝ)
    (hlab : ∀ lab ∈ d.labels, lab ∈ t.labels)
    (hcorr : t.use_line_segment_corrections = false)
    (hir : d.cov.inv.n_rows = d.n_cols) (hic : d.cov.inv.n_cols = d.n_cols)
    (hsq : d.cov.data.n_rows = d.cov.data.n_cols) :
    ∃ sub, track_subset d t = some sub ∧
      loglikelihood_datum Real.exp Real.sqrt Real.log Real.pi cf false d t
        = some (Real.log ((∑ i ∈ Finset.range t.n_vectors,
            sub.weights i * Real.exp (-(1 / 2) * specChiSq d sub i) *
              specDeltaM Real.sqrt sub i) /
            Real.sqrt (2 * Real.pi * detAux d.cov.data.n_rows d.cov.data)),
          t) := by
  have hidx : d.labels.mapM (strindex t.labels)
      = some (d.labels.map (fun s => (strindex t.labels s).getD 0)) := by
    refine list_mapM_option_eq_map _ _ _ (fun s hs => ?_)
    obtain ⟨k, hk⟩ := strindex_isSome t.labels s (hlab s hs)
    rw [hk]
    rfl
  set sub : TRACK ℝ :=
    { n_vectors := t.n_vectors
      labels := (d.labels.map (fun s => (strindex t.labels s).getD 0)).map
        (fun k => t.labels.getD k "")
      predictions := fun j i => t.predictions j
        ((d.labels.map (fun s => (strindex t.labels s).getD 0)).getD i 0)
      weights := t.weights
      n_threads := t.n_threads
      use_line_segment_corrections := t.use_line_segment_corrections
      normalize_weights := true } with hsubdef
  have hsubset : track_subset d t = some sub := by
    rw [track_subset, hidx]
    rfl
  have hsubdim : sub.dim = d.n_cols := by
    simp [hsubdef, TRACK.dim, DATUM.n_cols]
  refine ⟨sub, hsubset, ?_⟩
  have hmap : (List.range sub.n_vectors).mapM
      (fun i => (chi_squared d sub i).map fun chisq =>
        let s := sub.weights i * Real.exp (-(1 / 2) * chisq) *
          delta_model Real.sqrt sub i
        if t.use_line_segment_corrections then s * cf d sub i else s)
      = some ((List.range sub.n_vectors).map
        (fun i => sub.weights i * Real.exp (-(1 / 2) * specChiSq d sub i) *
          delta_model Real.sqrt sub i)) := by
    refine list_mapM_option_eq_map _ _ _ (fun i _ => ?_)
    rw [chi_squared_eq d sub i hsubdim hir hic]
    simp [hcorr]
  simp only [loglikelihood_datum, Bool.false_and, Bool.false_eq_true,
    if_false, loglikelihood_datum_body]
  rw [hsubset, Option.some_bind, hmap, Option.some_bind]
  rw [matrix_determinant, if_pos hsq]
  simp only [Option.map_some', Option.some.injEq]
  congr 2
  rw [list_range_map_sum]
  congr 1
  exact Finset.sum_congr rfl (fun i _ => by rw [delta_model_eq])

/-- Closed instance of C1 at the datum `{x: 0}` and the two-vertex track
`{x: [0, 1]}`. -/
theorem loglikelihood_datum_matches_spec_witness :
    (∀ lab ∈ realExampleDatum.labels, lab ∈ realExampleTrack.labels) ∧
      ∃ sub, track_subset realExampleDatum realExampleTrack = some sub ∧
        loglikelihood_datum Real.exp Real.sqrt Real.log Real.pi
            (fun _ _ _ => 0) false realExampleDatum realExampleTrack
          = some (Real.log ((∑ i ∈ Finset.range realExampleTrack.n_vectors,
              sub.weights i *
                Real.exp (-(1 / 2) * specChiSq realExampleDatum sub i) *
                specDeltaM Real.sqrt sub i) /
              Real.sqrt (2 * Real.pi *
                detAux realExampleDatum.cov.data.n_rows
                  realExampleDatum.cov.data)), realExampleTrack) :=
  ⟨by decide, loglikelihood_datum_matches_spec realExampleDatum
    realExampleTrack _ (by decide) rfl rfl rfl rfl⟩

end TrackStar
